import Mathlib

/-!
Verification of the brainflayer scanning pipeline (src/brainflayer.c).

The development shallowly embeds the pipeline: bytes are `Nat` (0..255 by
convention), buffers are `List Nat`, the external collaborators (OpenSSL
SHA256/RIPEMD160, secp256k1, the bloom filter, warpwallet) are abstract
function parameters bundled in `Ext`, and the OpenMP worker pool is a small
step semantics driven by an explicit schedule of actions.
-/

namespace Brainflayer

/-- Length of a SHA256 digest in bytes, as in the C sources. -/
def SHA256_DIGEST_LENGTH : Nat := 32

/-- Numeric value of one ASCII hex digit.  Modelled from the spec:
the decoder `hex_to_bytes` is declared in the repository's hex header but its
implementation is not under src/; the spec leaves non-hex characters as an
open question, modelled here as value 0. -/
def hexVal (c : Nat) : Nat :=
  if 48 ≤ c ∧ c ≤ 57 then c - 48
  else if 97 ≤ c ∧ c ≤ 102 then c - 87
  else if 65 ≤ c ∧ c ≤ 70 then c - 55
  else 0

/-- Pair up a list of nibble values into byte values. -/
def pairNibbles : List Nat → List Nat
  | a :: b :: rest => (a * 16 + b) :: pairNibbles rest
  | _ => []

/-- Modelled from the spec: `hex_to_bytes` decodes ASCII hex characters into
bytes; an odd-length input is read as if a zero nibble completed the first
byte (the spec's example: hex 123 decodes to bytes 0x01 0x23). -/
def hex_to_bytes (s : List Nat) : List Nat :=
  let ds := s.map hexVal
  pairNibbles (if s.length % 2 = 1 then 0 :: ds else ds)

/-- Overwrite `bs.length` entries of `buf` starting at offset `off`. -/
def writeBytes (buf : List Nat) (off : Nat) (bs : List Nat) : List Nat :=
  buf.take off ++ bs ++ buf.drop (off + bs.length)

/-- Embedding of `make_secret` in HEXWALLET mode (src/brainflayer.c lines
47-59): the 32-byte output is zero-filled, the supplied length is clamped to
64 hex characters, `byte_count = (len + 1) / 2` bytes are decoded from the
*start* of the input string, and the decoded bytes are written
`byte_count` bytes from the end of the output. -/
def make_secret_hex (input : List Nat) : List Nat :=
  writeBytes (List.replicate SHA256_DIGEST_LENGTH 0)
    (SHA256_DIGEST_LENGTH - (min input.length (2 * SHA256_DIGEST_LENGTH) + 1) / 2)
    (hex_to_bytes (input.take (min input.length (2 * SHA256_DIGEST_LENGTH))))

/-- The two concrete long hex candidates used to separate the code's
behaviour from the claim: they agree on their final 64 characters but not on
their initial ones. -/
def longHexA : List Nat := [49, 50] ++ List.replicate 64 48

/-- Companion candidate to `longHexA`: just 64 ASCII zeros. -/
def longHexB : List Nat := List.replicate 64 48

/-- Embedding of the in-place compression step (src/brainflayer.c lines
197-203): byte 0 of the uncompressed encoding is overwritten with
0x02 OR (last byte AND 1), and the compressed encoding is the first 33
bytes of the resulting buffer.  The X coordinate is reused, the curve point
is not recomputed. -/
def compress_pubkey (pubkey : List Nat) : List Nat :=
  (pubkey.set 0 (2 ||| (pubkey.getD 64 0 &&& 1))).take 33

/-- The three mutually exclusive compile-time derivation modes
(BRAINWALLET, WARPWALLET, HEXWALLET in src/brainflayer.c lines 23-34). -/
inductive Mode
  | brainwallet
  | warpwallet
  | hexwallet
deriving DecidableEq

/-- External collaborators of the pipeline, consumed through narrow
interfaces (spec section 6): OpenSSL SHA256 and RIPEMD160, the warpwallet
stretching primitive, secp256k1 public-key creation (which fails exactly on
scalars that are invalid for the curve), and the loaded bloom filter's
membership test.  They are abstract function parameters of the model. -/
structure Ext where
  sha256 : List Nat → List Nat
  ripemd160 : List Nat → List Nat
  stretch : List Nat → List Nat
  pubkey_create : List Nat → Option (List Nat)
  bloom_chk : List Nat → Bool

/-- Embedding of `make_secret` (src/brainflayer.c lines 40-61), one case per
compile-time mode. -/
def make_secret (E : Ext) (m : Mode) (input : List Nat) : List Nat :=
  match m with
  | .brainwallet => E.sha256 input
  | .warpwallet => E.stretch input
  | .hexwallet => make_secret_hex input

/-- Hash160 of a public-key encoding: RIPEMD160 of SHA256
(src/brainflayer.c lines 194-195 and 202-203). -/
def hash160 (E : Ext) (bs : List Nat) : List Nat :=
  E.ripemd160 (E.sha256 bs)

/-- One match record as assembled for `display` (src/brainflayer.c lines
206-218): the candidate text, the private-key secret, the hash160 that hit
the filter, and the compression flag. -/
structure Record where
  cand : List Nat
  secret : List Nat
  hash : List Nat
  compressed : Bool
deriving DecidableEq

/-- The 96-byte worker-private pubkey buffer after the call to
`secp256k1_ecdsa_pubkey_create` (src/brainflayer.c line 190).  The code
ignores the call's return value: on success the uncompressed key is written
at the start of the buffer, on failure (invalid scalar) the buffer keeps its
previous, stale contents. -/
def bufAfterCreate (E : Ext) (buf secret : List Nat) : List Nat :=
  match E.pubkey_create secret with
  | some p => writeBytes buf 0 p
  | none => buf

/-- The pubkey buffer after the in-place compression write
(src/brainflayer.c line 201). -/
def bufCompressed (b : List Nat) : List Nat :=
  b.set 0 (2 ||| (b.getD 64 0 &&& 1))

/-- The match records produced by the two independent filter lookups of one
iteration (src/brainflayer.c lines 206-218), given the two hash160 values. -/
def recsOf (E : Ext) (cand secret hu hc : List Nat) : List Record :=
  (if E.bloom_chk hu then [⟨cand, secret, hu, false⟩] else []) ++
  (if E.bloom_chk hc then [⟨cand, secret, hc, true⟩] else [])

/-- One full pipeline iteration on a candidate (src/brainflayer.c lines
189-218): derive the pubkey into the buffer (return value ignored), hash160
the first 65 buffer bytes, compress in place, hash160 the first 33 bytes,
and look both hashes up in the filter.  Returns the final buffer contents
and the emitted records. -/
def iterStep (E : Ext) (buf cand secret : List Nat) : List Nat × List Record :=
  (bufCompressed (bufAfterCreate E buf secret),
   recsOf E cand secret
     (hash160 E ((bufAfterCreate E buf secret).take 65))
     (hash160 E ((bufCompressed (bufAfterCreate E buf secret)).take 33)))

/-- A concrete, fully computable instance of the external collaborators,
used for evaluating the model on closed inputs: hashing pads/truncates to
the digest size, the zero scalar is the invalid one, and the filter answers
true (bloom filters may answer true for any query). -/
def testExt : Ext where
  sha256 := fun l => (l ++ List.replicate 32 0).take 32
  ripemd160 := fun l => (l ++ List.replicate 20 0).take 20
  stretch := fun l => (l ++ List.replicate 32 0).take 32
  pubkey_create := fun s =>
    if s = List.replicate 32 0 then none else some (4 :: List.replicate 64 1)
  bloom_chk := fun _ => true

/-- The candidate extracted from one raw input line as returned by
`getline` (src/brainflayer.c lines 182-184): the code measures the line
with `strlen` (so it stops at the first NUL byte) and then unconditionally
overwrites the *last* byte of that prefix with a NUL terminator, whatever
that byte is. -/
def candidate_of_line (line : List Nat) : List Nat :=
  (line.takeWhile (fun b => decide (b ≠ 0))).dropLast

/-- Per-worker loop position: about to enter the getline critical section;
holding getline's result (a raw line, or none when getline returned -1 at
end of input); or stopped (broken out of the loop). -/
inductive WPhase
  | atTop
  | gotLine (res : Option (List Nat))
  | stopped
deriving DecidableEq

/-- One worker's private state (src/brainflayer.c lines 156-169): loop
phase, the private line counter `my_line_count` (an unsigned int, kept
modulo 2^32), the private 96-byte pubkey buffer, and — as history
variables for stating properties — the lines this worker fully processed
and the lines it read but discarded at the signal check. -/
structure WState where
  phase : WPhase
  count : Nat
  buf : List Nat
  processed : List (List Nat)
  dropped : List (List Nat)
deriving DecidableEq

/-- Global scan state: remaining input lines, the `signal_break` flag, the
worker pool, and the serialized match output. -/
structure SState where
  input : List (List Nat)
  signal : Bool
  workers : List WState
  output : List Record
deriving DecidableEq

/-- Scheduler actions: worker i executes the getline critical section;
worker i executes the post-getline check (and, if it proceeds, the whole
rest of its loop body); or the SIGINT handler sets `signal_break`. -/
inductive Act
  | read (i : Nat)
  | check (i : Nat)
  | sigint
deriving DecidableEq

/-- 2^32, the modulus of the C program's unsigned int counters. -/
def UINT_MOD : Nat := 4294967296

/-- The whole loop body after the check passes (src/brainflayer.c lines
180-218): count the line, trim it to a candidate, derive the secret and run
the pipeline iteration on the worker's buffer. -/
def processLine (E : Ext) (m : Mode) (buf l : List Nat) :
    List Nat × List Record :=
  iterStep E buf (candidate_of_line l) (make_secret E m (candidate_of_line l))

/-- One scheduler action on the global state.  `read` models the
`getline` critical section (lines 173-176): only one worker pops the next
line at a time; at end of input getline yields -1 (modelled as `none`).
`check` models line 179: a worker holding `none`, or holding a line while
`signal_break` is set, breaks out of the loop (in the latter case the line
it had already read is discarded); otherwise it runs the full loop body.
Actions that do not match a worker's phase do nothing. -/
def doAct (E : Ext) (m : Mode) (s : SState) : Act → SState
  | .sigint => { s with signal := true }
  | .read i =>
    match s.workers.get? i with
    | none => s
    | some w =>
      match w.phase with
      | .atTop =>
        match s.input with
        | [] => { s with workers := s.workers.set i ({ w with phase := .gotLine none }) }
        | l :: rest =>
          { s with input := rest,
                   workers := s.workers.set i ({ w with phase := .gotLine (some l) }) }
      | _ => s
  | .check i =>
    match s.workers.get? i with
    | none => s
    | some w =>
      match w.phase with
      | .gotLine none =>
        { s with workers := s.workers.set i ({ w with phase := .stopped }) }
      | .gotLine (some l) =>
        if s.signal then
          let w2 : WState :=
            { w with phase := .stopped, dropped := w.dropped ++ [l] }
          { s with workers := s.workers.set i w2 }
        else
          let w2 : WState :=
            { w with phase := .atTop,
                     count := (w.count + 1) % UINT_MOD,
                     buf := (processLine E m w.buf l).1,
                     processed := w.processed ++ [l] }
          { s with workers := s.workers.set i w2,
                   output := s.output ++ (processLine E m w.buf l).2 }
      | _ => s

/-- Run a whole schedule of actions. -/
def runActs (E : Ext) (m : Mode) (s : SState) (acts : List Act) : SState :=
  acts.foldl (doAct E m) s

/-- Initial scan state: the whole input pending, signal clear, n workers
all at the top of their loops with zeroed counters and buffers. -/
def initState (lines : List (List Nat)) (n : Nat) : SState :=
  ⟨lines, false, List.replicate n ⟨.atTop, 0, List.replicate 96 0, [], []⟩, []⟩

/-- The scan from the initial state under a given schedule. -/
def scanRun (E : Ext) (m : Mode) (lines : List (List Nat)) (n : Nat)
    (acts : List Act) : SState :=
  runActs E m (initState lines n) acts

/-- All workers have broken out of their loops (the `omp parallel` region
can be joined). -/
def allStopped (s : SState) : Prop :=
  ∀ w ∈ s.workers, w.phase = WPhase.stopped

instance (s : SState) : Decidable (allStopped s) := by
  unfold allStopped
  infer_instance

/-- The Aggregate Counter: `line_count += my_line_count` over all workers,
in unsigned int arithmetic (src/brainflayer.c lines 225-226). -/
def totalCount (s : SState) : Nat :=
  ((s.workers.map WState.count).sum) % UINT_MOD

/-- The line a worker has read but not yet passed through the check, as a
multiset (empty unless the worker is between getline and the check). -/
def pendingMS (w : WState) : Multiset (List Nat) :=
  match w.phase with
  | .gotLine (some l) => {l}
  | _ => 0

/-- All lines currently claimed-but-unchecked across the pool. -/
def pendSum (s : SState) : Multiset (List Nat) :=
  (s.workers.map pendingMS).sum

/-- All lines fully processed across the pool. -/
def procSum (s : SState) : Multiset (List Nat) :=
  (s.workers.map (fun w => (w.processed : Multiset (List Nat)))).sum

/-- All lines read but discarded at a signal check across the pool. -/
def dropSum (s : SState) : Multiset (List Nat) :=
  (s.workers.map (fun w => (w.dropped : Multiset (List Nat)))).sum

/-- Where every line of the original input currently is: still pending in
the stream, claimed by a worker, processed, or discarded. -/
def stateMS (s : SState) : Multiset (List Nat) :=
  (s.input : Multiset (List Nat)) + pendSum s + procSum s + dropSum s

/-- The conservation and bookkeeping invariant of the worker pool, true in
every reachable state: every input line is in exactly one place (stream,
claimed, processed, dropped); each worker's counter counts exactly its
processed lines, in unsigned arithmetic; a running worker has dropped
nothing; no worker ever drops more than one line; and nothing is dropped
before the signal is raised. -/
structure Inv (lines : List (List Nat)) (s : SState) : Prop where
  conserve : stateMS s = (lines : Multiset (List Nat))
  counts : ∀ w ∈ s.workers, w.count = w.processed.length % UINT_MOD
  dropStopped : ∀ w ∈ s.workers, w.phase ≠ WPhase.stopped → w.dropped = []
  dropBound : ∀ w ∈ s.workers, w.dropped.length ≤ 1
  sigDrop : s.signal = false → ∀ w ∈ s.workers, w.dropped = []

/-- Invariant of signal-free runs: the signal flag is still clear, and no
worker can have seen end-of-input (or stopped) while lines remain, because
`getline` only reports -1 once the stream is exhausted and, without a
signal, a worker only stops after seeing -1. -/
structure InvNS (s : SState) : Prop where
  sig : s.signal = false
  eof : s.input = [] ∨
    ∀ w ∈ s.workers, w.phase ≠ WPhase.stopped ∧ w.phase ≠ WPhase.gotLine none

/-- The compile-time attack-mode banner string (src/brainflayer.c lines
23-34). -/
def attack_mode : Mode → String
  | .brainwallet => "Brainwallet"
  | .warpwallet => "Warpwallet"
  | .hexwallet => "Hexwallet"

/-- Outcome of a whole process run: exit code, what was written to the
diagnostic channel (stderr), and the final scan state when the scan ran. -/
structure MainOutcome where
  exitCode : Nat
  stderrLines : List String
  scan : Option SState
deriving DecidableEq

/-- Embedding of `main`'s control flow (src/brainflayer.c lines 112-241):
with exactly two argv entries (program name plus the one positional filter
path) the filter is loaded, the pool runs the scan and the process returns
0; with any other argument count the error and usage lines go to stderr and
the process exits with status 1 before the pool is spawned or any input
line is read. -/
def main_run (E : Ext) (m : Mode) (argc : Nat) (arg0 filterPath : String)
    (lines : List (List Nat)) (n : Nat) (acts : List Act) : MainOutcome :=
  if argc = 2 then
    { exitCode := 0,
      stderrLines := ["Loading bloom filter " ++ filterPath,
        "Using attack mode " ++ attack_mode m,
        "Spawning up to " ++ toString n ++ " threads"],
      scan := some (scanRun E m lines n acts) }
  else
    { exitCode := 1,
      stderrLines := ["Incorrect number of arguments, expected 2, got "
          ++ toString argc,
        "USAGE:  " ++ arg0 ++ "  BLOOM_FILTER  <  WORD_LIST"],
      scan := none }

/-- How many input lines a run consumed from the stream. -/
def linesConsumed (lines : List (List Nat)) (o : MainOutcome) : Nat :=
  match o.scan with
  | some s => lines.length - s.input.length
  | none => 0

/-- What a terminated run does guarantee about cooperative shutdown (the
amended C2): every input line ends up in exactly one of the remaining
stream, some worker's processed lines, or some worker's discarded lines
(at most one discard per worker, and none unless the signal was raised);
counters count exactly the processed lines; a stopped worker is never
touched again by any action (it consumes nothing further); and the process
exit status is 0. -/
def shutdownPost (E : Ext) (m : Mode) (lines : List (List Nat)) (n : Nat)
    (acts : List Act) : Prop :=
  (((scanRun E m lines n acts).input : Multiset (List Nat))
      + procSum (scanRun E m lines n acts)
      + dropSum (scanRun E m lines n acts)
    = (lines : Multiset (List Nat))) ∧
  (∀ w ∈ (scanRun E m lines n acts).workers,
    w.count = w.processed.length % UINT_MOD) ∧
  (∀ w ∈ (scanRun E m lines n acts).workers, w.dropped.length ≤ 1) ∧
  ((scanRun E m lines n acts).signal = false →
    ∀ w ∈ (scanRun E m lines n acts).workers, w.dropped = []) ∧
  (∀ (s2 : SState) (j : Nat) (v : WState) (a : Act),
    s2.workers.get? j = some v → v.phase = WPhase.stopped →
    (doAct E m s2 a).workers.get? j = some v) ∧
  (main_run E m 2 "brainflayer" "filter.blf" lines n acts).exitCode = 0

theorem pairNibbles_length : ∀ l : List Nat, (pairNibbles l).length = l.length / 2
  | [] => by simp [pairNibbles]
  | [_] => by simp [pairNibbles]
  | _ :: _ :: rest => by
      simp only [pairNibbles, List.length_cons, pairNibbles_length rest]
      omega

theorem hex_to_bytes_length (s : List Nat) :
    (hex_to_bytes s).length = (s.length + 1) / 2 := by
  unfold hex_to_bytes
  by_cases h : s.length % 2 = 1
  · simp [h, pairNibbles_length, List.length_map]
  · simp [h, pairNibbles_length, List.length_map]
    omega

/-- Claim C1, counterexample: `longHexA` and `longHexB` share their last 64
hex characters, yet `make_secret` in Hex mode derives different Secrets from
them (the code decodes the *first* 64 characters, not the last), so the
Secret does not depend only on the final 64 characters of the input. -/
theorem C1_counterexample :
    longHexA.drop (longHexA.length - 64) = longHexB.drop (longHexB.length - 64) ∧
    make_secret_hex longHexA ≠ make_secret_hex longHexB := by decide

/-- Claim C1, amended: in Hex mode, for a candidate longer than 64 hex
characters the derivation uses only the *first* 64 characters (logical
truncation from the right), so the Secret depends only on the initial 64
characters of the input. -/
theorem C1_amended_hex_uses_first_64 (input : List Nat) :
    make_secret_hex input = make_secret_hex (input.take 64) := by
  unfold make_secret_hex
  have h1 : min (input.take 64).length (2 * SHA256_DIGEST_LENGTH)
      = min input.length (2 * SHA256_DIGEST_LENGTH) := by
    simp [List.length_take, SHA256_DIGEST_LENGTH]
    omega
  rw [h1, List.take_take]
  have h2 : min (min input.length (2 * SHA256_DIGEST_LENGTH)) 64
      = min input.length (2 * SHA256_DIGEST_LENGTH) := by
    simp [SHA256_DIGEST_LENGTH]
  rw [h2]

/-- Claim C6: in Hex mode the 32-byte output buffer is zero-filled and the
`ceil(len/2)` decoded bytes land right-justified in its tail; in particular
the candidate 1234 gives 30 zero bytes followed by 0x12 0x34. -/
theorem C6_hex_right_justified (input : List Nat) (h : input.length ≤ 64) :
    make_secret_hex input =
      List.replicate (32 - (input.length + 1) / 2) 0 ++ hex_to_bytes input ∧
    (make_secret_hex input).length = 32 ∧
    make_secret_hex [49, 50, 51, 52] = List.replicate 30 0 ++ [0x12, 0x34] := by
  have hbc : (input.length + 1) / 2 ≤ 32 := by omega
  have hmin : min input.length (2 * SHA256_DIGEST_LENGTH) = input.length := by
    simp [SHA256_DIGEST_LENGTH]; omega
  constructor
  · unfold make_secret_hex writeBytes
    rw [hmin, List.take_length]
    rw [List.take_replicate, List.drop_replicate]
    have hlen : (hex_to_bytes input).length = (input.length + 1) / 2 :=
      hex_to_bytes_length input
    rw [hlen]
    have h32 : SHA256_DIGEST_LENGTH - (input.length + 1) / 2 + (input.length + 1) / 2
        = SHA256_DIGEST_LENGTH := by
      simp [SHA256_DIGEST_LENGTH]; omega
    rw [h32]
    simp [SHA256_DIGEST_LENGTH]
  constructor
  · unfold make_secret_hex writeBytes
    rw [hmin, List.take_length]
    simp [SHA256_DIGEST_LENGTH, hex_to_bytes_length]
    omega
  · decide

/-- Witness for C6 at the concrete candidate 1234. -/
theorem C6_hex_right_justified_witness :
    ([49, 50, 51, 52] : List Nat).length ≤ 64 ∧
    (make_secret_hex [49, 50, 51, 52] =
      List.replicate (32 - (([49, 50, 51, 52] : List Nat).length + 1) / 2) 0 ++
        hex_to_bytes [49, 50, 51, 52] ∧
    (make_secret_hex [49, 50, 51, 52]).length = 32 ∧
    make_secret_hex [49, 50, 51, 52] = List.replicate 30 0 ++ [0x12, 0x34]) :=
  ⟨by decide, C6_hex_right_justified [49, 50, 51, 52] (by decide)⟩

/-- Claim C4: for a 65-byte uncompressed encoding, the compressed form is 33
bytes, its byte 0 is 0x02 when the low bit of the last (Y) byte is 0 and
0x03 when that bit is 1, and its bytes 1..32 equal bytes 1..32 (the X
coordinate) of the uncompressed encoding. -/
theorem C4_compressed_encoding (u : List Nat) (h : u.length = 65) :
    (compress_pubkey u).length = 33 ∧
    (u.getD 64 0 &&& 1 = 0 → (compress_pubkey u).headD 0 = 2) ∧
    (u.getD 64 0 &&& 1 = 1 → (compress_pubkey u).headD 0 = 3) ∧
    (compress_pubkey u).drop 1 = (u.drop 1).take 32 := by
  cases u with
  | nil => simp at h
  | cons a t =>
    have ht : t.length = 64 := by simpa using h
    have hrepr : compress_pubkey (a :: t)
        = (2 ||| ((a :: t).getD 64 0 &&& 1)) :: t.take 32 := rfl
    refine ⟨?_, ?_, ?_, ?_⟩
    · rw [hrepr]
      simp [List.length_take, ht]
    · intro h0
      rw [hrepr, h0]
      simp
    · intro h1
      rw [hrepr, h1]
      simp
    · rw [hrepr]
      simp

/-- Witness for C4 at a concrete 65-byte uncompressed encoding with an odd
last byte. -/
theorem C4_compressed_encoding_witness :
    (4 :: List.replicate 64 7 : List Nat).length = 65 ∧
    ((compress_pubkey (4 :: List.replicate 64 7)).length = 33 ∧
    ((4 :: List.replicate 64 7 : List Nat).getD 64 0 &&& 1 = 0 →
      (compress_pubkey (4 :: List.replicate 64 7)).headD 0 = 2) ∧
    ((4 :: List.replicate 64 7 : List Nat).getD 64 0 &&& 1 = 1 →
      (compress_pubkey (4 :: List.replicate 64 7)).headD 0 = 3) ∧
    (compress_pubkey (4 :: List.replicate 64 7)).drop 1 =
      ((4 :: List.replicate 64 7 : List Nat).drop 1).take 32) :=
  ⟨by decide, C4_compressed_encoding (4 :: List.replicate 64 7) (by decide)⟩

theorem bufAfterCreate_valid (E : Ext) (buf secret p : List Nat)
    (hp : E.pubkey_create secret = some p) (hpl : p.length = 65) :
    bufAfterCreate E buf secret = p ++ buf.drop 65 := by
  unfold bufAfterCreate writeBytes
  rw [hp]
  simp [hpl]

theorem take65_of_valid (buf p : List Nat) (hpl : p.length = 65) :
    (p ++ buf.drop 65).take 65 = p := by
  rw [List.take_append_eq_append_take]
  simp [hpl]

theorem compressed_take_33 (p rest : List Nat) (hpl : p.length = 65) :
    (bufCompressed (p ++ rest)).take 33 = compress_pubkey p := by
  cases p with
  | nil => simp at hpl
  | cons a t =>
    have ht : t.length = 64 := by simpa using hpl
    have hget : ((a :: t) ++ rest).getD 64 0 = (a :: t).getD 64 0 :=
      List.getD_append (a :: t) rest 0 64 (by simp [ht])
    unfold bufCompressed compress_pubkey
    rw [hget]
    simp only [List.cons_append, List.set_cons_zero]
    rw [List.take_succ_cons, List.take_succ_cons, List.take_append_eq_append_take]
    simp [ht]

/-- Claim C7: for a candidate whose secret yields a valid public key,
exactly two hash160 values are computed: hash160 of the 65-byte uncompressed
encoding and hash160 of the 33-byte compressed encoding; each is looked up
in the filter independently, so the iteration emits a record for the
uncompressed hash exactly when the filter contains it and a record for the
compressed hash exactly when the filter contains it (neither, either, or
both). -/
theorem C7_two_hash160_lookups (E : Ext) (buf cand secret p : List Nat)
    (hp : E.pubkey_create secret = some p)
    (hpl : p.length = 65) :
    (iterStep E buf cand secret).2 =
      (if E.bloom_chk (hash160 E p)
        then [⟨cand, secret, hash160 E p, false⟩] else []) ++
      (if E.bloom_chk (hash160 E (compress_pubkey p))
        then [⟨cand, secret, hash160 E (compress_pubkey p), true⟩] else []) := by
  unfold iterStep recsOf
  rw [bufAfterCreate_valid E buf secret p hp hpl,
    take65_of_valid buf p hpl, compressed_take_33 p (buf.drop 65) hpl]

/-- Witness for C7 at concrete collaborators, buffer, candidate and secret. -/
theorem C7_two_hash160_lookups_witness :
    testExt.pubkey_create (List.replicate 32 1) = some (4 :: List.replicate 64 1) ∧
    (4 :: List.replicate 64 1 : List Nat).length = 65 ∧
    (iterStep testExt (List.replicate 96 0) [97] (List.replicate 32 1)).2 =
      (if testExt.bloom_chk (hash160 testExt (4 :: List.replicate 64 1))
        then [⟨[97], List.replicate 32 1,
          hash160 testExt (4 :: List.replicate 64 1), false⟩] else []) ++
      (if testExt.bloom_chk (hash160 testExt (compress_pubkey (4 :: List.replicate 64 1)))
        then [⟨[97], List.replicate 32 1,
          hash160 testExt (compress_pubkey (4 :: List.replicate 64 1)), true⟩] else []) :=
  ⟨by decide, by decide,
    C7_two_hash160_lookups testExt (List.replicate 96 0) [97] (List.replicate 32 1)
      (4 :: List.replicate 64 1) (by decide) (by decide)⟩

/-- Claim C3 (code bug): the code ignores the return value of
`secp256k1_ecdsa_pubkey_create` (src/brainflayer.c line 190).  For the
Hexwallet candidate of 64 ASCII zeros, the derived secret is the zero
scalar, which is not a valid scalar for the curve, yet the iteration does
not skip the candidate: it hashes the stale pubkey buffer and (with a
filter answering true, as a bloom filter may) still emits match records for
the candidate, contradicting the claimed silent skip with no record. -/
theorem C3_invalid_scalar_not_skipped :
    testExt.pubkey_create
      (make_secret testExt Mode.hexwallet (List.replicate 64 48)) = none ∧
    (iterStep testExt (List.replicate 96 0) (List.replicate 64 48)
      (make_secret testExt Mode.hexwallet (List.replicate 64 48))).2 ≠ [] := by
  decide

/-- Claim C8, counterexample: the final line of an input whose last line has
no trailing terminator, here the two bytes 97 98 (the text ab).  Stripping
only a trailing line terminator would leave the line unchanged (its last
byte, 98, is not the terminator 10), but the code's candidate is just 97:
a data byte was removed. -/
theorem C8_counterexample :
    ([97, 98] : List Nat).getLast? ≠ some 10 ∧
    candidate_of_line [97, 98] = [97] ∧
    ([97] : List Nat) ≠ [97, 98] := by decide

theorem takeWhile_all {α : Type} (p : α → Bool) :
    ∀ l : List α, (∀ b ∈ l, p b = true) → l.takeWhile p = l
  | [], _ => rfl
  | a :: t, h => by
      have ha : p a = true := h a (List.mem_cons_self a t)
      simp only [List.takeWhile_cons, ha, if_true]
      rw [takeWhile_all p t (fun b hb => h b (List.mem_cons_of_mem a hb))]

/-- Claim C8, amended: the candidate is the input line with its last byte
removed; whenever the line ends with the line terminator (byte 10) and
contains no NUL byte, this is exactly the line with its trailing terminator
stripped, i.e. candidate ++ terminator = line.  (A final line lacking its
terminator instead loses its last data byte, per `C8_counterexample`.) -/
theorem C8_amended_last_byte_stripped (line : List Nat)
    (h0 : (0 : Nat) ∉ line) (hlast : line.getLast? = some 10) :
    candidate_of_line line = line.dropLast ∧
    candidate_of_line line ++ [10] = line := by
  have hne : line ≠ [] := by
    intro he
    rw [he] at hlast
    simp at hlast
  have htw : line.takeWhile (fun b => decide (b ≠ 0)) = line := by
    apply takeWhile_all
    intro b hb
    simp only [decide_eq_true_eq]
    intro hb0
    exact h0 (hb0 ▸ hb)
  have hcand : candidate_of_line line = line.dropLast := by
    unfold candidate_of_line
    rw [htw]
  refine ⟨hcand, ?_⟩
  rw [hcand]
  have hgl : line.getLast hne = 10 := by
    have := List.getLast?_eq_getLast line hne
    rw [this] at hlast
    exact Option.some_injective _ hlast
  rw [← hgl]
  exact List.dropLast_append_getLast hne

/-- Witness for C8 amended, on the line consisting of byte 97 and the
terminator. -/
theorem C8_amended_last_byte_stripped_witness :
    (0 : Nat) ∉ ([97, 10] : List Nat) ∧
    ([97, 10] : List Nat).getLast? = some 10 ∧
    (candidate_of_line [97, 10] = ([97, 10] : List Nat).dropLast ∧
      candidate_of_line [97, 10] ++ [10] = [97, 10]) :=
  ⟨by decide, by decide,
    C8_amended_last_byte_stripped [97, 10] (by decide) (by decide)⟩

theorem sum_map_set {α β : Type} [AddCommMonoid β] (f : α → β) :
    ∀ (l : List α) (i : Nat) (b a : α), l.get? i = some a →
      ((l.set i b).map f).sum + f a = (l.map f).sum + f b
  | [], i, b, a, h => by simp at h
  | x :: t, 0, b, a, h => by
      simp only [List.get?] at h
      cases h
      simp only [List.set, List.map_cons, List.sum_cons]
      abel
  | x :: t, i + 1, b, a, h => by
      simp only [List.get?] at h
      have ih := sum_map_set f t i b a h
      simp only [List.set, List.map_cons, List.sum_cons]
      rw [add_assoc, ih]
      abel

theorem sum_map_set_eq {α β : Type} [AddCancelCommMonoid β] (f : α → β)
    (l : List α) (i : Nat) (b a : α) (h : l.get? i = some a) (hf : f b = f a) :
    ((l.set i b).map f).sum = (l.map f).sum := by
  have := sum_map_set f l i b a h
  rw [hf] at this
  exact add_right_cancel this

theorem mem_of_mem_set {α : Type} :
    ∀ (l : List α) (i : Nat) (b x : α), x ∈ l.set i b → x ∈ l ∨ x = b
  | [], _, _, _, h => by simp at h
  | y :: t, 0, b, x, h => by
      rcases List.mem_cons.mp h with h1 | h1
      · exact Or.inr h1
      · exact Or.inl (List.mem_cons_of_mem y h1)
  | y :: t, i + 1, b, x, h => by
      rcases List.mem_cons.mp h with h1 | h1
      · exact Or.inl (h1 ▸ List.mem_cons_self y t)
      · rcases mem_of_mem_set t i b x h1 with h2 | h2
        · exact Or.inl (List.mem_cons_of_mem y h2)
        · exact Or.inr h2

theorem get?_set_self {α : Type} :
    ∀ (l : List α) (i : Nat) (a : α), i < l.length →
      (l.set i a).get? i = some a
  | [], i, a, h => by simp at h
  | x :: t, 0, a, _ => rfl
  | x :: t, i + 1, a, h => get?_set_self t i a (by simpa using h)

theorem inv_initState (lines : List (List Nat)) (n : Nat) :
    Inv lines (initState lines n) := by
  constructor
  · unfold stateMS pendSum procSum dropSum initState
    simp only
    rw [List.sum_eq_zero, List.sum_eq_zero, List.sum_eq_zero]
    · simp
    · intro x hx
      rcases List.mem_map.mp hx with ⟨w, hw, hwx⟩
      rw [List.eq_of_mem_replicate hw] at hwx
      simpa using hwx.symm
    · intro x hx
      rcases List.mem_map.mp hx with ⟨w, hw, hwx⟩
      rw [List.eq_of_mem_replicate hw] at hwx
      simpa using hwx.symm
    · intro x hx
      rcases List.mem_map.mp hx with ⟨w, hw, hwx⟩
      rw [List.eq_of_mem_replicate hw] at hwx
      rw [← hwx]
      simp [pendingMS]
  · intro w hw
    rw [List.eq_of_mem_replicate hw]
    simp [UINT_MOD]
  · intro w hw
    rw [List.eq_of_mem_replicate hw]
    intro
    rfl
  · intro w hw
    rw [List.eq_of_mem_replicate hw]
    simp
  · intro _ w hw
    rw [List.eq_of_mem_replicate hw]

theorem forall_mem_set {α : Type} (l : List α) (i : Nat) (b : α) (P : α → Prop)
    (hall : ∀ x ∈ l, P x) (hb : P b) : ∀ x ∈ l.set i b, P x := by
  intro x hx
  rcases mem_of_mem_set l i b x hx with h1 | h1
  · exact hall x h1
  · exact h1 ▸ hb

theorem stateMS_rfl (s : SState) :
    stateMS s = (s.input : Multiset (List Nat))
      + (s.workers.map pendingMS).sum
      + (s.workers.map (fun x => (x.processed : Multiset (List Nat)))).sum
      + (s.workers.map (fun x => (x.dropped : Multiset (List Nat)))).sum := rfl

theorem conserve_update {lines : List (List Nat)} {s : SState}
    {input2 : List (List Nat)} {g : Bool} {out : List Record}
    {i : Nat} {w w2 : WState} (hw : s.workers.get? i = some w)
    (hc : stateMS s = (lines : Multiset (List Nat)))
    (hbal : (input2 : Multiset (List Nat))
        + (pendingMS w2 + (w2.processed : Multiset (List Nat)) + (w2.dropped : Multiset (List Nat)))
      = (s.input : Multiset (List Nat))
        + (pendingMS w + (w.processed : Multiset (List Nat)) + (w.dropped : Multiset (List Nat)))) :
    stateMS ⟨input2, g, s.workers.set i w2, out⟩ = (lines : Multiset (List Nat)) := by
  have e1 := sum_map_set pendingMS s.workers i w2 w hw
  have e2 := sum_map_set (fun x => (x.processed : Multiset (List Nat)))
    s.workers i w2 w hw
  have e3 := sum_map_set (fun x => (x.dropped : Multiset (List Nat)))
    s.workers i w2 w hw
  simp only at e2 e3
  refine add_right_cancel
    (b := pendingMS w + (w.processed : Multiset (List Nat))
      + (w.dropped : Multiset (List Nat))) ?_
  calc stateMS ⟨input2, g, s.workers.set i w2, out⟩
      + (pendingMS w + (w.processed : Multiset (List Nat))
        + (w.dropped : Multiset (List Nat)))
      = (input2 : Multiset (List Nat))
        + (((s.workers.set i w2).map pendingMS).sum + pendingMS w)
        + (((s.workers.set i w2).map
            (fun x => (x.processed : Multiset (List Nat)))).sum
          + (w.processed : Multiset (List Nat)))
        + (((s.workers.set i w2).map
            (fun x => (x.dropped : Multiset (List Nat)))).sum
          + (w.dropped : Multiset (List Nat))) := by
        rw [stateMS_rfl]
        abel
    _ = (input2 : Multiset (List Nat))
        + ((s.workers.map pendingMS).sum + pendingMS w2)
        + ((s.workers.map
            (fun x => (x.processed : Multiset (List Nat)))).sum
          + (w2.processed : Multiset (List Nat)))
        + ((s.workers.map
            (fun x => (x.dropped : Multiset (List Nat)))).sum
          + (w2.dropped : Multiset (List Nat))) := by
        rw [e1, e2, e3]
    _ = ((input2 : Multiset (List Nat))
          + (pendingMS w2 + (w2.processed : Multiset (List Nat))
            + (w2.dropped : Multiset (List Nat))))
        + ((s.workers.map pendingMS).sum
          + (s.workers.map
              (fun x => (x.processed : Multiset (List Nat)))).sum
          + (s.workers.map
              (fun x => (x.dropped : Multiset (List Nat)))).sum) := by
        abel
    _ = ((s.input : Multiset (List Nat))
          + (pendingMS w + (w.processed : Multiset (List Nat))
            + (w.dropped : Multiset (List Nat))))
        + ((s.workers.map pendingMS).sum
          + (s.workers.map
              (fun x => (x.processed : Multiset (List Nat)))).sum
          + (s.workers.map
              (fun x => (x.dropped : Multiset (List Nat)))).sum) := by
        rw [hbal]
    _ = stateMS s
        + (pendingMS w + (w.processed : Multiset (List Nat))
          + (w.dropped : Multiset (List Nat))) := by
        rw [stateMS_rfl]
        abel
    _ = (lines : Multiset (List Nat))
        + (pendingMS w + (w.processed : Multiset (List Nat))
          + (w.dropped : Multiset (List Nat))) := by
        rw [hc]

theorem inv_doAct (E : Ext) (m : Mode) (lines : List (List Nat)) (s : SState)
    (a : Act) (h : Inv lines s) : Inv lines (doAct E m s a) := by
  cases a with
  | sigint =>
    refine ⟨h.conserve, h.counts, h.dropStopped, h.dropBound, ?_⟩
    intro hf
    simp only [doAct] at hf
    exact Bool.noConfusion hf
  | read i =>
    cases hw : s.workers.get? i with
    | none => simpa only [doAct, hw] using h
    | some w =>
      have hwmem : w ∈ s.workers := List.get?_mem hw
      cases hph : w.phase with
      | gotLine r => simpa only [doAct, hw, hph] using h
      | stopped => simpa only [doAct, hw, hph] using h
      | atTop =>
        cases hin : s.input with
        | nil =>
          simp only [doAct, hw, hph, hin]
          refine ⟨?_, ?_, ?_, ?_, ?_⟩
          · exact conserve_update hw h.conserve (by simp [pendingMS, hph, hin])
          · exact forall_mem_set _ _ _ _ h.counts (h.counts w hwmem)
          · exact forall_mem_set _ _ _ _ h.dropStopped
              (fun _ => h.dropStopped w hwmem (by simp [hph]))
          · exact forall_mem_set _ _ _ _ h.dropBound (h.dropBound w hwmem)
          · intro hs
            exact forall_mem_set _ _ _ _ (h.sigDrop hs) (h.sigDrop hs w hwmem)
        | cons l rest =>
          simp only [doAct, hw, hph, hin]
          refine ⟨?_, ?_, ?_, ?_, ?_⟩
          · refine conserve_update hw h.conserve ?_
            rw [hin, ← Multiset.cons_coe, ← Multiset.singleton_add]
            simp only [pendingMS, hph]
            abel
          · exact forall_mem_set _ _ _ _ h.counts (h.counts w hwmem)
          · exact forall_mem_set _ _ _ _ h.dropStopped
              (fun _ => h.dropStopped w hwmem (by simp [hph]))
          · exact forall_mem_set _ _ _ _ h.dropBound (h.dropBound w hwmem)
          · intro hs
            exact forall_mem_set _ _ _ _ (h.sigDrop hs) (h.sigDrop hs w hwmem)
  | check i =>
    cases hw : s.workers.get? i with
    | none => simpa only [doAct, hw] using h
    | some w =>
      have hwmem : w ∈ s.workers := List.get?_mem hw
      cases hph : w.phase with
      | atTop => simpa only [doAct, hw, hph] using h
      | stopped => simpa only [doAct, hw, hph] using h
      | gotLine r =>
        cases r with
        | none =>
          simp only [doAct, hw, hph]
          refine ⟨?_, ?_, ?_, ?_, ?_⟩
          · exact conserve_update hw h.conserve (by simp [pendingMS, hph])
          · exact forall_mem_set _ _ _ _ h.counts (h.counts w hwmem)
          · exact forall_mem_set _ _ _ _ h.dropStopped
              (fun hx => absurd rfl hx)
          · exact forall_mem_set _ _ _ _ h.dropBound (h.dropBound w hwmem)
          · intro hs
            exact forall_mem_set _ _ _ _ (h.sigDrop hs) (h.sigDrop hs w hwmem)
        | some l =>
          have hdw : w.dropped = [] :=
            h.dropStopped w hwmem (by simp [hph])
          by_cases hsig : s.signal = true
          · simp only [doAct, hw, hph, hsig, if_true]
            refine ⟨?_, ?_, ?_, ?_, ?_⟩
            · refine conserve_update hw h.conserve ?_
              simp only [pendingMS, hph]
              rw [← Multiset.coe_add]
              simp only [Multiset.coe_singleton]
              abel
            · exact forall_mem_set _ _ _ _ h.counts (h.counts w hwmem)
            · exact forall_mem_set _ _ _ _ h.dropStopped
                (fun hx => absurd rfl hx)
            · exact forall_mem_set _ _ _ _ h.dropBound (by simp [hdw])
            · intro hs
              exact Bool.noConfusion (show true = false from hs)
          · have hsig2 : s.signal = false := by
              cases hq : s.signal
              · rfl
              · exact absurd hq hsig
            simp only [doAct, hw, hph, hsig2, Bool.false_eq_true, if_false]
            refine ⟨?_, ?_, ?_, ?_, ?_⟩
            · refine conserve_update hw h.conserve ?_
              simp only [pendingMS, hph]
              rw [← Multiset.coe_add]
              simp only [Multiset.coe_singleton]
              abel
            · refine forall_mem_set _ _ _ _ h.counts ?_
              show (w.count + 1) % UINT_MOD = (w.processed ++ [l]).length % UINT_MOD
              rw [h.counts w hwmem, List.length_append]
              simp [Nat.mod_add_mod]
            · exact forall_mem_set _ _ _ _ h.dropStopped (fun _ => hdw)
            · exact forall_mem_set _ _ _ _ h.dropBound (by simp [hdw])
            · intro hs
              exact forall_mem_set _ _ _ _ (h.sigDrop hsig2)
                (h.sigDrop hsig2 w hwmem)

theorem inv_runActs (E : Ext) (m : Mode) (lines : List (List Nat)) :
    ∀ (acts : List Act) (s : SState), Inv lines s →
      Inv lines (runActs E m s acts)
  | [], _, h => h
  | a :: acts, s, h =>
      inv_runActs E m lines acts (doAct E m s a) (inv_doAct E m lines s a h)

theorem invNS_doAct (E : Ext) (m : Mode) (s : SState) (a : Act)
    (hns : InvNS s) (ha : a ≠ Act.sigint) : InvNS (doAct E m s a) := by
  cases a with
  | sigint => exact absurd rfl ha
  | read i =>
    cases hw : s.workers.get? i with
    | none => simpa only [doAct, hw] using hns
    | some w =>
      cases hph : w.phase with
      | gotLine r => simpa only [doAct, hw, hph] using hns
      | stopped => simpa only [doAct, hw, hph] using hns
      | atTop =>
        cases hin : s.input with
        | nil =>
          simp only [doAct, hw, hph, hin]
          exact ⟨hns.sig, Or.inl rfl⟩
        | cons l rest =>
          simp only [doAct, hw, hph, hin]
          rcases hns.eof with he | he
          · rw [hin] at he
            exact absurd he (by simp)
          · refine ⟨hns.sig, Or.inr ?_⟩
            refine forall_mem_set _ _ _ _ he ?_
            constructor
            · intro hx
              exact WPhase.noConfusion hx
            · intro hx
              simp at hx
  | check i =>
    cases hw : s.workers.get? i with
    | none => simpa only [doAct, hw] using hns
    | some w =>
      have hwmem : w ∈ s.workers := List.get?_mem hw
      cases hph : w.phase with
      | atTop => simpa only [doAct, hw, hph] using hns
      | stopped => simpa only [doAct, hw, hph] using hns
      | gotLine r =>
        cases r with
        | none =>
          rcases hns.eof with he | he
          · simp only [doAct, hw, hph]
            exact ⟨hns.sig, Or.inl he⟩
          · exact absurd hph (he w hwmem).2
        | some l =>
          simp only [doAct, hw, hph, hns.sig, Bool.false_eq_true, if_false]
          refine ⟨rfl, ?_⟩
          rcases hns.eof with he | he
          · exact Or.inl he
          · refine Or.inr (forall_mem_set _ _ _ _ he ?_)
            constructor
            · intro hx
              exact WPhase.noConfusion hx
            · intro hx
              exact WPhase.noConfusion hx

theorem invNS_runActs (E : Ext) (m : Mode) :
    ∀ (acts : List Act) (s : SState), InvNS s → Act.sigint ∉ acts →
      InvNS (runActs E m s acts)
  | [], _, h, _ => h
  | a :: acts, s, h, hmem =>
      invNS_runActs E m acts (doAct E m s a)
        (invNS_doAct E m s a h (fun he => hmem (he ▸ List.mem_cons_self a acts)))
        (fun hx => hmem (List.mem_cons_of_mem a hx))

theorem invNS_initState (lines : List (List Nat)) (n : Nat) :
    InvNS (initState lines n) := by
  constructor
  · rfl
  · cases lines with
    | nil => exact Or.inl rfl
    | cons l rest =>
      refine Or.inr ?_
      intro w hw
      rw [List.eq_of_mem_replicate hw]
      constructor
      · intro hx
        exact WPhase.noConfusion hx
      · intro hx
        exact WPhase.noConfusion hx

theorem workers_length_doAct (E : Ext) (m : Mode) (s : SState) (a : Act) :
    (doAct E m s a).workers.length = s.workers.length := by
  cases a with
  | sigint => rfl
  | read i =>
    cases hw : s.workers.get? i with
    | none => simp only [doAct, hw]
    | some w =>
      cases hph : w.phase with
      | gotLine r => simp only [doAct, hw, hph]
      | stopped => simp only [doAct, hw, hph]
      | atTop =>
        cases hin : s.input with
        | nil => simp only [doAct, hw, hph, hin, List.length_set]
        | cons l rest => simp only [doAct, hw, hph, hin, List.length_set]
  | check i =>
    cases hw : s.workers.get? i with
    | none => simp only [doAct, hw]
    | some w =>
      cases hph : w.phase with
      | atTop => simp only [doAct, hw, hph]
      | stopped => simp only [doAct, hw, hph]
      | gotLine r =>
        cases r with
        | none => simp only [doAct, hw, hph, List.length_set]
        | some l =>
          by_cases hsig : s.signal = true
          · simp only [doAct, hw, hph, hsig, if_true, List.length_set]
          · have hsig2 : s.signal = false := by
              cases hq : s.signal
              · rfl
              · exact absurd hq hsig
            simp only [doAct, hw, hph, hsig2, Bool.false_eq_true, if_false,
              List.length_set]

theorem workers_length_runActs (E : Ext) (m : Mode) :
    ∀ (acts : List Act) (s : SState),
      (runActs E m s acts).workers.length = s.workers.length
  | [], _ => rfl
  | a :: acts, s => by
      rw [show runActs E m s (a :: acts) = runActs E m (doAct E m s a) acts
          from rfl,
        workers_length_runActs E m acts (doAct E m s a),
        workers_length_doAct E m s a]

/-- A stopped worker is never touched again by any action: it reads no
further lines and its counters and history are final. -/
theorem stopped_stable (E : Ext) (m : Mode) (s : SState) (i : Nat) (w : WState)
    (a : Act) (hw : s.workers.get? i = some w)
    (hph : w.phase = WPhase.stopped) :
    (doAct E m s a).workers.get? i = some w := by
  cases a with
  | sigint => exact hw
  | read j =>
    by_cases hij : j = i
    · subst hij
      simp only [doAct, hw, hph]
    · cases hw2 : s.workers.get? j with
      | none => simp only [doAct, hw2]; exact hw
      | some v =>
        cases hph2 : v.phase with
        | gotLine r => simp only [doAct, hw2, hph2]; exact hw
        | stopped => simp only [doAct, hw2, hph2]; exact hw
        | atTop =>
          cases hin : s.input with
          | nil =>
            simp only [doAct, hw2, hph2, hin]
            rw [List.get?_set_ne _ _ hij]
            exact hw
          | cons l rest =>
            simp only [doAct, hw2, hph2, hin]
            rw [List.get?_set_ne _ _ hij]
            exact hw
  | check j =>
    by_cases hij : j = i
    · subst hij
      simp only [doAct, hw, hph]
    · cases hw2 : s.workers.get? j with
      | none => simp only [doAct, hw2]; exact hw
      | some v =>
        cases hph2 : v.phase with
        | atTop => simp only [doAct, hw2, hph2]; exact hw
        | stopped => simp only [doAct, hw2, hph2]; exact hw
        | gotLine r =>
          cases r with
          | none =>
            simp only [doAct, hw2, hph2]
            rw [List.get?_set_ne _ _ hij]
            exact hw
          | some l =>
            by_cases hsig : s.signal = true
            · simp only [doAct, hw2, hph2, hsig, if_true]
              rw [List.get?_set_ne _ _ hij]
              exact hw
            · have hsig2 : s.signal = false := by
                cases hq : s.signal
                · rfl
                · exact absurd hq hsig
              simp only [doAct, hw2, hph2, hsig2, Bool.false_eq_true, if_false]
              rw [List.get?_set_ne _ _ hij]
              exact hw

theorem card_list_sum : ∀ l : List (Multiset (List Nat)),
    Multiset.card l.sum = (l.map Multiset.card).sum
  | [] => by simp
  | a :: t => by simp [card_list_sum t]

theorem sum_mod_list (M : Nat) : ∀ l : List Nat,
    (l.map (fun x => x % M)).sum % M = l.sum % M
  | [] => rfl
  | a :: t => by
      simp only [List.map_cons, List.sum_cons]
      rw [Nat.add_mod (a % M), Nat.mod_mod_of_dvd a (dvd_refl M),
        sum_mod_list M t, ← Nat.add_mod]

theorem pendSum_zero_of_stopped (s : SState) (h : allStopped s) :
    pendSum s = 0 := by
  unfold pendSum
  apply List.sum_eq_zero
  intro x hx
  rcases List.mem_map.mp hx with ⟨w, hwmem, hwx⟩
  rw [← hwx]
  simp [pendingMS, h w hwmem]

theorem lt_of_get?_eq_some {α : Type} (l : List α) (i : Nat) (a : α)
    (h : l.get? i = some a) : i < l.length := by
  by_contra hcon
  rw [List.get?_eq_none.mpr (by omega)] at h
  exact Option.noConfusion h

/-- Claim C5: for an input of N lines and any pool of at least one worker,
after a completed signal-free run (all workers stopped, no SIGINT in the
schedule) the Aggregate Counter equals exactly N (for any realizable N,
i.e. N below the unsigned int modulus), and the multiset of lines processed
across all workers is exactly the multiset of input lines: every line was
consumed and processed by exactly one worker exactly once, with no
duplication and no loss, under every interleaving of the getline critical
section. -/
theorem C5_exactly_once (E : Ext) (m : Mode) (lines : List (List Nat))
    (n : Nat) (acts : List Act) (hn : 1 ≤ n) (hN : lines.length < UINT_MOD)
    (hsig : Act.sigint ∉ acts)
    (hterm : allStopped (scanRun E m lines n acts)) :
    totalCount (scanRun E m lines n acts) = lines.length ∧
    procSum (scanRun E m lines n acts) = (lines : Multiset (List Nat)) := by
  have hinv : Inv lines (scanRun E m lines n acts) :=
    inv_runActs E m lines acts _ (inv_initState lines n)
  have hns : InvNS (scanRun E m lines n acts) :=
    invNS_runActs E m acts _ (invNS_initState lines n) hsig
  have hlen : (scanRun E m lines n acts).workers.length = n := by
    unfold scanRun
    rw [workers_length_runActs]
    simp [initState]
  have hne : (scanRun E m lines n acts).workers ≠ [] := by
    intro h0
    rw [h0] at hlen
    simp at hlen
    omega
  obtain ⟨w0, hw0⟩ := List.exists_mem_of_ne_nil _ hne
  have hinput : (scanRun E m lines n acts).input = [] := by
    rcases hns.eof with he | he
    · exact he
    · exact absurd (hterm w0 hw0) (he w0 hw0).1
  have hpend : pendSum (scanRun E m lines n acts) = 0 :=
    pendSum_zero_of_stopped _ hterm
  have hdropz : dropSum (scanRun E m lines n acts) = 0 := by
    unfold dropSum
    apply List.sum_eq_zero
    intro x hx
    rcases List.mem_map.mp hx with ⟨w, hwmem, hwx⟩
    rw [← hwx, hinv.sigDrop hns.sig w hwmem]
    simp
  have hproc : procSum (scanRun E m lines n acts)
      = (lines : Multiset (List Nat)) := by
    have hc := hinv.conserve
    rw [show stateMS (scanRun E m lines n acts)
        = ((scanRun E m lines n acts).input : Multiset (List Nat))
          + pendSum (scanRun E m lines n acts)
          + procSum (scanRun E m lines n acts)
          + dropSum (scanRun E m lines n acts) from rfl,
      hinput, hpend, hdropz] at hc
    simpa using hc
  refine ⟨?_, hproc⟩
  have hcards : ((scanRun E m lines n acts).workers.map
      (fun w => w.processed.length)).sum = lines.length := by
    have h2 := congrArg Multiset.card hproc
    unfold procSum at h2
    rw [card_list_sum, List.map_map, Multiset.coe_card] at h2
    rw [← h2]
    apply congrArg
    apply List.map_congr_left
    intro w _
    simp [Multiset.coe_card]
  unfold totalCount
  have hcnt : (scanRun E m lines n acts).workers.map WState.count
      = (scanRun E m lines n acts).workers.map
          (fun w => w.processed.length % UINT_MOD) :=
    List.map_congr_left (fun w hw => hinv.counts w hw)
  rw [hcnt,
    show (scanRun E m lines n acts).workers.map
        (fun w => w.processed.length % UINT_MOD)
      = ((scanRun E m lines n acts).workers.map
          (fun w => w.processed.length)).map (fun x => x % UINT_MOD) from by
      rw [List.map_map]
      rfl,
    sum_mod_list UINT_MOD, hcards, Nat.mod_eq_of_lt hN]

/-- Witness for C5: two lines, two workers, an interleaved signal-free
schedule that drains the input; the counter is 2 and the processed multiset
is exactly the input. -/
theorem C5_exactly_once_witness :
    1 ≤ 2 ∧
    ([[97, 10], [98, 10]] : List (List Nat)).length < UINT_MOD ∧
    Act.sigint ∉ [Act.read 0, Act.read 1, Act.check 1, Act.check 0,
      Act.read 1, Act.check 1, Act.read 0, Act.check 0] ∧
    allStopped (scanRun testExt Mode.brainwallet [[97, 10], [98, 10]] 2
      [Act.read 0, Act.read 1, Act.check 1, Act.check 0,
       Act.read 1, Act.check 1, Act.read 0, Act.check 0]) ∧
    (totalCount (scanRun testExt Mode.brainwallet [[97, 10], [98, 10]] 2
      [Act.read 0, Act.read 1, Act.check 1, Act.check 0,
       Act.read 1, Act.check 1, Act.read 0, Act.check 0]) = 2 ∧
    procSum (scanRun testExt Mode.brainwallet [[97, 10], [98, 10]] 2
      [Act.read 0, Act.read 1, Act.check 1, Act.check 0,
       Act.read 1, Act.check 1, Act.read 0, Act.check 0])
      = ([[97, 10], [98, 10]] : List (List Nat))) :=
  ⟨by decide, by decide, by decide, by decide,
    C5_exactly_once testExt Mode.brainwallet [[97, 10], [98, 10]] 2
      [Act.read 0, Act.read 1, Act.check 1, Act.check 0,
       Act.read 1, Act.check 1, Act.read 0, Act.check 0]
      (by decide) (by decide) (by decide) (by decide)⟩

/-- Claim C9: with a wrong argument count (anything but exactly one
positional argument, i.e. argc different from 2) the process reports the
error on the diagnostic channel and exits with the non-zero status 1,
before any worker is spawned and before any input line is consumed. -/
theorem C9_bad_argc (E : Ext) (m : Mode) (argc : Nat) (arg0 fp : String)
    (lines : List (List Nat)) (n : Nat) (acts : List Act) (h : argc ≠ 2) :
    (main_run E m argc arg0 fp lines n acts).exitCode = 1 ∧
    (main_run E m argc arg0 fp lines n acts).scan = none ∧
    linesConsumed lines (main_run E m argc arg0 fp lines n acts) = 0 ∧
    (main_run E m argc arg0 fp lines n acts).stderrLines ≠ [] := by
  unfold main_run
  rw [if_neg h]
  refine ⟨rfl, rfl, rfl, ?_⟩
  intro hc
  exact List.noConfusion hc

/-- Witness for C9 at argc = 3. -/
theorem C9_bad_argc_witness :
    (3 : Nat) ≠ 2 ∧
    ((main_run testExt Mode.brainwallet 3 "brainflayer" "filter.blf"
        [[97, 10]] 1 []).exitCode = 1 ∧
    (main_run testExt Mode.brainwallet 3 "brainflayer" "filter.blf"
        [[97, 10]] 1 []).scan = none ∧
    linesConsumed [[97, 10]] (main_run testExt Mode.brainwallet 3
        "brainflayer" "filter.blf" [[97, 10]] 1 []) = 0 ∧
    (main_run testExt Mode.brainwallet 3 "brainflayer" "filter.blf"
        [[97, 10]] 1 []).stderrLines ≠ []) :=
  ⟨by decide, C9_bad_argc testExt Mode.brainwallet 3 "brainflayer"
    "filter.blf" [[97, 10]] 1 [] (by decide)⟩

/-- Claim C2, counterexample: one worker, two lines, schedule: the worker
processes the first line, reads (claims) the second line, then SIGINT
arrives, and the worker's next check observes the signal and breaks.  The
run ends with all workers stopped, the whole input consumed, but the
Aggregate Counter is 1 and the second line was never processed or reported
by any worker: it was claimed at signal time and then discarded, so not
every line claimed at signal time is fully processed before exit. -/
theorem C2_counterexample :
    allStopped (scanRun testExt Mode.brainwallet [[97, 10], [98, 10]] 1
      [Act.read 0, Act.check 0, Act.read 0, Act.sigint, Act.check 0]) ∧
    (scanRun testExt Mode.brainwallet [[97, 10], [98, 10]] 1
      [Act.read 0, Act.check 0, Act.read 0, Act.sigint, Act.check 0]).input
      = [] ∧
    (scanRun testExt Mode.brainwallet [[97, 10], [98, 10]] 1
      [Act.read 0, Act.check 0, Act.read 0, Act.sigint, Act.check 0]).signal
      = true ∧
    totalCount (scanRun testExt Mode.brainwallet [[97, 10], [98, 10]] 1
      [Act.read 0, Act.check 0, Act.read 0, Act.sigint, Act.check 0]) = 1 ∧
    (∀ w ∈ (scanRun testExt Mode.brainwallet [[97, 10], [98, 10]] 1
      [Act.read 0, Act.check 0, Act.read 0, Act.sigint, Act.check 0]).workers,
      [98, 10] ∉ w.processed) ∧
    (∃ w ∈ (scanRun testExt Mode.brainwallet [[97, 10], [98, 10]] 1
      [Act.read 0, Act.check 0, Act.read 0, Act.sigint, Act.check 0]).workers,
      w.dropped = [[98, 10]]) := by decide

/-- Claim C2, amended: after a shutdown signal each worker stops at its
next check and is never touched again; every line whose processing had
begun is fully processed and counted exactly once; but a line a worker had
read and not yet checked when it observed the signal is consumed and
discarded unprocessed (at most one such line per worker, and only in
signalled runs); the process still exits with status 0. -/
theorem C2_amended_cooperative_shutdown (E : Ext) (m : Mode)
    (lines : List (List Nat)) (n : Nat) (acts : List Act)
    (hterm : allStopped (scanRun E m lines n acts)) :
    shutdownPost E m lines n acts := by
  have hinv : Inv lines (scanRun E m lines n acts) :=
    inv_runActs E m lines acts _ (inv_initState lines n)
  have hpend : pendSum (scanRun E m lines n acts) = 0 :=
    pendSum_zero_of_stopped _ hterm
  refine ⟨?_, hinv.counts, hinv.dropBound, hinv.sigDrop, ?_, ?_⟩
  · have hc := hinv.conserve
    rw [show stateMS (scanRun E m lines n acts)
        = ((scanRun E m lines n acts).input : Multiset (List Nat))
          + pendSum (scanRun E m lines n acts)
          + procSum (scanRun E m lines n acts)
          + dropSum (scanRun E m lines n acts) from rfl,
      hpend] at hc
    rw [← hc]
    abel
  · intro s2 j v a hw hph
    exact stopped_stable E m s2 j v a hw hph
  · rfl

/-- Witness for C2 amended, at the counterexample's interrupted run. -/
theorem C2_amended_cooperative_shutdown_witness :
    allStopped (scanRun testExt Mode.brainwallet [[97, 10], [98, 10]] 1
      [Act.read 0, Act.check 0, Act.read 0, Act.sigint, Act.check 0]) ∧
    shutdownPost testExt Mode.brainwallet [[97, 10], [98, 10]] 1
      [Act.read 0, Act.check 0, Act.read 0, Act.sigint, Act.check 0] :=
  ⟨by decide,
    C2_amended_cooperative_shutdown testExt Mode.brainwallet
      [[97, 10], [98, 10]] 1
      [Act.read 0, Act.check 0, Act.read 0, Act.sigint, Act.check 0]
      (by decide)⟩

/-- Claim C10: a line consisting of only its terminator yields the empty
candidate, and a worker holding it at a signal-free check runs the full
loop body on it like any other line: the line is counted (counter
incremented in unsigned arithmetic), recorded as processed, and the
emitted output is exactly the pipeline iteration — derivation, both
hash160 computations and both filter checks — applied to the empty byte
string. -/
theorem C10_empty_line_processed (E : Ext) (m : Mode) (s : SState) (i : Nat)
    (w : WState) (hw : s.workers.get? i = some w)
    (hph : w.phase = WPhase.gotLine (some [10])) (hsig : s.signal = false) :
    candidate_of_line [10] = [] ∧
    (doAct E m s (Act.check i)).workers.get? i =
      some ⟨WPhase.atTop, (w.count + 1) % UINT_MOD,
        (processLine E m w.buf [10]).1, w.processed ++ [[10]], w.dropped⟩ ∧
    (doAct E m s (Act.check i)).output =
      s.output ++ (iterStep E w.buf [] (make_secret E m [])).2 := by
  have hcand : candidate_of_line [10] = ([] : List Nat) := rfl
  refine ⟨hcand, ?_, ?_⟩
  · simp only [doAct, hw, hph, hsig, Bool.false_eq_true, if_false]
    exact get?_set_self _ _ _ (lt_of_get?_eq_some _ _ _ hw)
  · simp only [doAct, hw, hph, hsig, Bool.false_eq_true, if_false]
    rw [show processLine E m w.buf [10]
        = iterStep E w.buf [] (make_secret E m []) from by
      unfold processLine
      rw [hcand]]

/-- Witness for C10: a one-worker pool that has just read the sole input
line, which is a bare terminator. -/
theorem C10_empty_line_processed_witness :
    (doAct testExt Mode.brainwallet (initState [[10]] 1)
        (Act.read 0)).workers.get? 0 =
      some ⟨WPhase.gotLine (some [10]), 0, List.replicate 96 0, [], []⟩ ∧
    (⟨WPhase.gotLine (some [10]), 0, List.replicate 96 0, [], []⟩
        : WState).phase = WPhase.gotLine (some [10]) ∧
    (doAct testExt Mode.brainwallet (initState [[10]] 1)
        (Act.read 0)).signal = false ∧
    (candidate_of_line [10] = [] ∧
    (doAct testExt Mode.brainwallet
        (doAct testExt Mode.brainwallet (initState [[10]] 1) (Act.read 0))
        (Act.check 0)).workers.get? 0 =
      some ⟨WPhase.atTop, (0 + 1) % UINT_MOD,
        (processLine testExt Mode.brainwallet (List.replicate 96 0) [10]).1,
        [] ++ [[10]], []⟩ ∧
    (doAct testExt Mode.brainwallet
        (doAct testExt Mode.brainwallet (initState [[10]] 1) (Act.read 0))
        (Act.check 0)).output =
      (doAct testExt Mode.brainwallet (initState [[10]] 1)
        (Act.read 0)).output ++
        (iterStep testExt (List.replicate 96 0) []
          (make_secret testExt Mode.brainwallet [])).2) :=
  ⟨by decide, by decide, by decide,
    C10_empty_line_processed testExt Mode.brainwallet
      (doAct testExt Mode.brainwallet (initState [[10]] 1) (Act.read 0)) 0
      ⟨WPhase.gotLine (some [10]), 0, List.replicate 96 0, [], []⟩
      (by decide) (by decide) (by decide)⟩

end Brainflayer

